import Mathlib

/-
Verification development for nodejs-tarballs (src/nodejs-tarballs.py).

The Python program walks a package-lock dependency tree, accumulates a
filename-keyed registry of artifact descriptors (MODULE_MAP), and feeds that
registry to several consumers (spec-line writer, checksum writer, location
writer, downloader).  This file gives a shallow embedding of that program:

  * string helpers model the exact Python primitives the source uses
    (os.path.basename, str.split with maxsplit, str.endswith, slicing,
    str.upper, base64.b64decode, binascii.hexlify, urllib.parse.urlparse and
    urlunparse);
  * the dependency walk collect_deps_recursive is modelled as a function from
    a manifest tree to an Except value: Python exceptions (KeyError from
    entry lookups, ValueError from tuple unpacking, binascii.Error from
    base64) become .error results, and logging calls are recorded in an
    explicit log list;
  * the checksum writer and the downloader loop are modelled the same way,
    with filesystem / network / subprocess effects abstracted into oracle
    functions carried by a World record.

JSON dictionaries are represented as association lists; the walk sorts each
dependency map by key before iterating, exactly as the Python source does
with sorted(deps).
-/

/-! ## String primitives used by the source -/

/-- Python os.path.basename for POSIX paths: the text after the last slash. -/
def basename (s : String) : String :=
  String.mk (s.toList.foldl (fun acc c => if c = '/' then [] else acc ++ [c]) [])

/-- Python str.endswith restricted to a plain suffix string. -/
def pyEndsWith (s suffix : String) : Bool :=
  suffix.toList.isSuffixOf s.toList

/-- Python slicing s[:-n] (drop the last n characters). -/
def pyDropRight (s : String) (n : Nat) : String :=
  String.mk (s.toList.take (s.toList.length - n))

/-- Python str.upper on the ASCII strings stored by the program. -/
def pyUpper (s : String) : String :=
  String.mk (s.toList.map Char.toUpper)

/-- Python membership test c in s for one character. -/
def pyContains (s : String) (c : Char) : Bool :=
  s.toList.contains c

/-- Accumulator loop behind Python str.split(sep, maxsplit) for a one
character separator: n is the number of splits still allowed, acc holds the
current piece reversed. -/
def pySplitAux (sep : Char) : Nat → List Char → List Char → List (List Char)
  | _, [], acc => [acc.reverse]
  | 0, c :: rest, acc => [acc.reverse ++ c :: rest]
  | m + 1, c :: rest, acc =>
    if c = sep then acc.reverse :: pySplitAux sep m rest []
    else pySplitAux sep (m + 1) rest (c :: acc)

/-- Python s.split(sep, n) for a one character separator. -/
def pySplitLim (sep : Char) (n : Nat) (s : String) : List String :=
  (pySplitAux sep n s.toList []).map String.mk

/-- Python s.split(sep) (no maxsplit) for a one character separator. -/
def pySplitAll (sep : Char) (s : String) : List String :=
  (pySplitAux sep s.toList.length s.toList []).map String.mk

/-! ## base64 and hexlify -/

/-- The value of one character of the standard base64 alphabet. -/
def b64Index (c : Char) : Option Nat :=
  let n := c.toNat
  if 65 ≤ n ∧ n ≤ 90 then some (n - 65)
  else if 97 ≤ n ∧ n ≤ 122 then some (n - 97 + 26)
  else if 48 ≤ n ∧ n ≤ 57 then some (n - 48 + 52)
  else if n = 43 then some 62
  else if n = 47 then some 63
  else none

/-- Reassemble decoded 6-bit groups into bytes, three bytes per full group of
four characters, honouring a final group of two or three characters. -/
def b64DecodeChunks : List Nat → List Nat
  | v1 :: v2 :: v3 :: v4 :: rest =>
    (v1 * 4 + v2 / 16) :: ((v2 % 16) * 16 + v3 / 4) :: ((v3 % 4) * 64 + v4) ::
      b64DecodeChunks rest
  | [v1, v2, v3] => [v1 * 4 + v2 / 16, (v2 % 16) * 16 + v3 / 4]
  | [v1, v2] => [v1 * 4 + v2 / 16]
  | [_] => []
  | [] => []

/-- Model of Python base64.b64decode (validate=False).  Characters outside
the alphabet and outside padding are discarded, as b64decode does; a string
whose padded length is not a multiple of four, or whose padding is misplaced
or longer than two characters, raises binascii.Error, modelled as none.  On
well-formed base64 input this computes exactly the bytes b64decode returns. -/
def b64decode (s : String) : Option (List Nat) :=
  let cs := s.toList.filter (fun c => (b64Index c).isSome || c == '=')
  let t := (cs.reverse.takeWhile (fun c => c == '=')).length
  let data := cs.take (cs.length - t)
  if data.any (fun c => c == '=') then none
  else if t ≤ 2 ∧ (data.length + t) % 4 = 0 ∧ data.length % 4 ≠ 1 then
    some (b64DecodeChunks (data.map (fun c => (b64Index c).getD 0)))
  else none

/-- One lowercase hexadecimal digit. -/
def hexDigitChar (n : Nat) : Char :=
  "0123456789abcdef".toList.getD n '0'

/-- Model of binascii.hexlify(...).decode("ascii"): two lowercase hex digits
per byte. -/
def hexlify (bs : List Nat) : String :=
  String.mk (bs.foldr (fun b acc => hexDigitChar (b / 16) :: hexDigitChar (b % 16) :: acc) [])

/-- Membership in the lowercase hexadecimal alphabet. -/
def isLowerHexChar (c : Char) : Bool :=
  "0123456789abcdef".toList.contains c

/-! ## urllib.parse -/

/-- The six components returned by urllib.parse.urlparse. -/
structure UrlParts where
  scheme : String
  netloc : String
  path : String
  params : String
  query : String
  fragment : String
deriving DecidableEq, Repr

/-- Characters allowed in a URL scheme (after the first, which must be a
letter), as in urllib.parse. -/
def schemeChar (c : Char) : Bool :=
  c.isAlpha || c.isDigit || c = '+' || c = '-' || c = '.'

/-- Model of urllib.parse.urlsplit: split off scheme, then netloc (after
"//", up to the first of "/", "?", "#"), then fragment at the first "#",
then query at the first "?". -/
def urlsplit (url : String) : UrlParts :=
  let cs := url.toList
  let p1 : String × List Char :=
    match cs.findIdx? (· = ':') with
    | some i =>
      if 0 < i ∧ (cs.headD ' ').isAlpha ∧ (cs.take i).all schemeChar then
        (String.mk ((cs.take i).map Char.toLower), cs.drop (i + 1))
      else ("", cs)
    | none => ("", cs)
  let scheme := p1.1
  let rest := p1.2
  let p2 : String × List Char :=
    if rest.take 2 = ['/', '/'] then
      let after := rest.drop 2
      let n := after.takeWhile (fun c => ¬(c = '/' ∨ c = '?' ∨ c = '#'))
      (String.mk n, after.drop n.length)
    else ("", rest)
  let netloc := p2.1
  let rest2 := p2.2
  let p3 : List Char × String :=
    match rest2.findIdx? (· = '#') with
    | some i => (rest2.take i, String.mk (rest2.drop (i + 1)))
    | none => (rest2, "")
  let rest3 := p3.1
  let fragment := p3.2
  let p4 : List Char × String :=
    match rest3.findIdx? (· = '?') with
    | some i => (rest3.take i, String.mk (rest3.drop (i + 1)))
    | none => (rest3, "")
  ⟨scheme, netloc, String.mk p4.1, "", p4.2, fragment⟩

/-- Position of the last slash in a character list, if any. -/
def rfindSlash (l : List Char) : Option Nat :=
  match l.reverse.findIdx? (· = '/') with
  | some j => some (l.length - 1 - j)
  | none => none

/-- Position of the first occurrence of c at or after index start. -/
def findFrom (l : List Char) (c : Char) (start : Nat) : Option Nat :=
  match (l.drop start).findIdx? (· = c) with
  | some j => some (start + j)
  | none => none

/-- Model of urllib.parse.urlparse: urlsplit plus splitting params off the
last path segment at ";". -/
def urlparse (url : String) : UrlParts :=
  let u := urlsplit url
  let pcs := u.path.toList
  let idx : Option Nat :=
    if pcs.any (· = '/') then
      match rfindSlash pcs with
      | some r => findFrom pcs ';' r
      | none => pcs.findIdx? (· = ';')
    else pcs.findIdx? (· = ';')
  match idx with
  | some i => { u with path := String.mk (pcs.take i), params := String.mk (pcs.drop (i + 1)) }
  | none => u

/-- Model of urllib.parse.urlunsplit.  The fragment argument mirrors the
Python value passed in (None or a string); a None or empty fragment adds
nothing. -/
def urlunsplit (scheme netloc url query : String) (fragment : Option String) : String :=
  let url1 :=
    if netloc ≠ "" ∨ (url ≠ "" ∧ url.toList.take 2 = ['/', '/']) then
      let u2 := if url ≠ "" ∧ url.toList.take 1 ≠ ['/'] then "/" ++ url else url
      "//" ++ netloc ++ u2
    else url
  let url2 := if scheme ≠ "" then scheme ++ ":" ++ url1 else url1
  let url3 := if query ≠ "" then url2 ++ "?" ++ query else url2
  match fragment with
  | some f => if f ≠ "" then url3 ++ "#" ++ f else url3
  | none => url3

/-- Model of urllib.parse.urlunparse. -/
def urlunparse (scheme netloc url params query : String) (fragment : Option String) : String :=
  let url1 := if params ≠ "" then url ++ ";" ++ params else url
  urlunsplit scheme netloc url1 query fragment

/-! ## Data model

A manifest node mirrors one entry of the package-lock dependency tree.  The
"bundled" key is modelled as a Bool (false when the key is absent or falsy,
matching the source's check that the key is present and truthy); "resolved",
"integrity" and "from" are optional strings; an absent "dependencies" key is
the empty list, which makes the recursion a no-op exactly as in Python.
Dictionaries are association lists; the walk sorts them by key before
iterating, as sorted(deps) does. -/

inductive Node : Type where
  | mk : Bool → Option String → Option String → Option String →
      List (String × Node) → Node

def Node.bundled : Node → Bool
  | .mk b _ _ _ _ => b

def Node.resolved : Node → Option String
  | .mk _ r _ _ _ => r

def Node.integrity : Node → Option String
  | .mk _ _ i _ _ => i

def Node.fromField : Node → Option String
  | .mk _ _ _ f _ => f

def Node.dependencies : Node → List (String × Node)
  | .mk _ _ _ _ ds => ds

/-- The registry-resolved artifact descriptor: MODULE_MAP entries of the form
{url, algo, chksum}. -/
structure RegDesc where
  url : String
  algo : String
  chksum : String
deriving DecidableEq, Repr

/-- The VCS artifact descriptor: MODULE_MAP entries of the form
{scm, branch, basename, url}. -/
structure VcsDesc where
  scm : String
  branch : String
  basename : String
  url : String
deriving DecidableEq, Repr

/-- The two shapes of MODULE_MAP values (minus the shared path set). -/
inductive Desc : Type where
  | reg : RegDesc → Desc
  | vcs : VcsDesc → Desc
deriving DecidableEq, Repr

/-- One MODULE_MAP entry: descriptor plus the set stored under the "path"
key.  The Python code creates the entry dict without "path" and immediately
adds it via setdefault; the two-field record observes the same states. -/
structure Entry where
  desc : Desc
  path : Finset String
deriving DecidableEq

/-- MODULE_MAP: filename-keyed insertion-ordered dictionary. -/
abbrev Registry : Type := List (String × Entry)

/-- Python exceptions the program can raise from the modelled code paths. -/
inductive PyExc : Type where
  | keyError : String → PyExc
  | valueError : PyExc
  | binasciiError : PyExc
  | httpError : PyExc
  | osError : PyExc
deriving DecidableEq, Repr

/-- Logging calls made by the program, with the arguments each call passes.
(One quirk of the source is not reproduced: the checksum-failure log passes
the bound method h.hexdigest instead of calling it; the model records the
digest string itself.) -/
inductive Log : Type where
  | warnUnsupported : String → String → Log
  | warnNoDownload : String → Log
  | errMismatch : String → String → String → String → String → String → String → Log
  | infoSkipExisting : String → Log
  | infoFetching : String → String → Log
  | errCloneFailed : String → Log
  | errTarFailed : String → Log
  | errChecksumFailure : String → String → String → String → Log
  | errOSError : Log
deriving DecidableEq, Repr

/-- Walk state: the registry plus the chronological log. -/
structure St where
  reg : Registry
  logs : List Log
deriving DecidableEq

/-- Dictionary lookup MODULE_MAP[fn] (as an Option). -/
def rlookup : Registry → String → Option Entry
  | [], _ => none
  | (k, v) :: rest, fn => if k = fn then some v else rlookup rest fn

/-- Dictionary assignment MODULE_MAP[fn] = e: replace in place, else append
(Python dicts keep insertion order). -/
def rset : Registry → String → Entry → Registry
  | [], fn, e => [(fn, e)]
  | (k, v) :: rest, fn, e =>
    if k = fn then (k, e) :: rest else (k, v) :: rset rest fn e

/-- MODULE_MAP[fn].setdefault("path", set()).add(path): add one referencing
path to the entry stored under fn (the call sites guarantee fn is present). -/
def addPath : Registry → String → String → Registry
  | [], _, _ => []
  | (k, v) :: rest, fn, p =>
    if k = fn then (k, { v with path := insert p v.path }) :: addPath rest fn p
    else (k, v) :: addPath rest fn p

/-- path = "/".join(("node_modules", module)), prefixed by the parent path d
when d is non-empty (Python: if d:). -/
def mkPath (d module : String) : String :=
  let p := "node_modules" ++ "/" ++ module
  if d ≠ "" then d ++ "/" ++ p else p

/-! ## The per-node classification step (lines 47-110 of the source, without
the recursion into "dependencies") -/

/-- branch = "master" unless the URI fragment is non-empty. -/
def vcsBranch (o : UrlParts) : String :=
  if o.fragment ≠ "" then o.fragment else "master"

/-- p = os.path.basename(o.path), with a trailing ".git" stripped. -/
def vcsBase (o : UrlParts) : String :=
  let p := basename o.path
  if pyEndsWith p ".git" then pyDropRight p 4 else p

/-- fn = "{}-{}.tgz".format(p, branch). -/
def vcsFn (o : UrlParts) : String :=
  vcsBase o ++ "-" ++ vcsBranch o ++ ".tgz"

/-- The stored VCS url: urlunparse with the original components and the
fragment replaced by None. -/
def vcsUrl (scheme : String) (o : UrlParts) : String :=
  urlunparse scheme o.netloc o.path o.params o.query none

/-- fn for a registry-resolved entry: the basename of the resolved URL,
prefixed with module.split("/")[0] + "-" when the module name has a slash. -/
def derivedFn (module url : String) : String :=
  let fn := basename url
  if pyContains module '/' then (pySplitAll '/' module).headD "" ++ "-" ++ fn else fn

/-- One classification step of collect_deps_recursive: everything the loop
body does for one (module, entry) pair except the bundled check and the
recursion into nested dependencies.  Python exceptions are .error results:
entry["integrity"] on a dict without the key is KeyError; unpacking
entry["integrity"].split("-", 2) into two names raises ValueError unless the
split has exactly two parts; b64decode raises binascii.Error on bad base64;
MODULE_MAP[fn]["algo"] raises KeyError when the existing entry is a VCS
entry (if its url differs the mismatch branch is taken and logging.error
evaluates MODULE_MAP[fn]["algo"]; if its url matches the condition itself
evaluates it - either way KeyError). -/
def registerNode (d name : String) (node : Node) (st : St) : Except PyExc St :=
  let path := mkPath d name
  match node.resolved with
  | none =>
    match node.fromField with
    | some fromUrl =>
      let o := urlparse fromUrl
      if o.scheme = "git+http" ∨ o.scheme = "git+https" then
        match pySplitAll '+' o.scheme with
        | [_, scheme] =>
          let fn := vcsFn o
          let e : Entry := ⟨.vcs ⟨"git", vcsBranch o, vcsBase o, vcsUrl scheme o⟩, ∅⟩
          .ok { st with reg := addPath (rset st.reg fn e) fn path }
        | _ => .error .valueError
      else
        .ok { st with logs := st.logs ++ [.warnUnsupported name fromUrl] }
    | none =>
      .ok { st with logs := st.logs ++ [.warnNoDownload name] }
  | some url =>
    match node.integrity with
    | none => .error (.keyError "integrity")
    | some integrity =>
      match pySplitLim '-' 2 integrity with
      | [algo, chksumB64] =>
        match b64decode chksumB64 with
        | none => .error .binasciiError
        | some bytes =>
          let chksum := hexlify bytes
          let fn := derivedFn name url
          match rlookup st.reg fn with
          | none =>
            .ok { st with
                  reg := addPath (rset st.reg fn ⟨.reg ⟨url, algo, chksum⟩, ∅⟩) fn path }
          | some e =>
            match e.desc with
            | .vcs _ => .error (.keyError "algo")
            | .reg rd =>
              if rd.url ≠ url ∨ rd.algo ≠ algo ∨ rd.chksum ≠ chksum then
                .ok { reg := addPath st.reg fn path,
                      logs := st.logs ++
                        [.errMismatch name rd.url url rd.algo rd.chksum algo chksum] }
              else
                .ok { st with reg := addPath st.reg fn path }
      | _ => .error .valueError

/-! ## Sorting dictionaries by key, and the recursive walk -/

/-- Python string comparison: lexicographic by code point. -/
def pyStrLt : List Char → List Char → Bool
  | [], [] => false
  | [], _ :: _ => true
  | _ :: _, [] => false
  | c :: cs, d :: ds =>
    if c.toNat < d.toNat then true
    else if d.toNat < c.toNat then false
    else pyStrLt cs ds

/-- s ≤ t in Python's string order. -/
def pyStrLe (s t : String) : Bool :=
  !pyStrLt t.toList s.toList

/-- Insert one keyed pair into a key-sorted list. -/
def insertByKey {α : Type} (p : String × α) : List (String × α) → List (String × α)
  | [] => [p]
  | q :: rest => if pyStrLe p.1 q.1 then p :: q :: rest else q :: insertByKey p rest

/-- Insertion sort by key: the iteration order of Python sorted(dict). -/
def sortByKey {α : Type} : List (String × α) → List (String × α)
  | [] => []
  | p :: rest => insertByKey p (sortByKey rest)

mutual

/-- collect_deps_recursive(d, deps): iterate the dictionary in sorted key
order. -/
def collectDeps (d : String) (deps : List (String × Node)) (st : St) :
    Except PyExc St :=
  collectList d (sortByKey deps) st
termination_by 2 * sizeOf deps + 1
decreasing_by
  have hins : ∀ (p : String × Node) (l : List (String × Node)),
      sizeOf (insertByKey p l) = 1 + sizeOf p + sizeOf l := by
    intro p l
    induction l with
    | nil => simp [insertByKey]
    | cons q rest ih =>
      simp only [insertByKey]
      split <;> simp [List.cons.sizeOf_spec, ih] <;> omega
  have hsort : sizeOf (sortByKey deps) = sizeOf deps := by
    induction deps with
    | nil => rfl
    | cons p rest ih =>
      simp only [sortByKey]
      rw [hins]
      simp [List.cons.sizeOf_spec, ih] <;> omega
  rw [hsort]
  omega

/-- The sorted for-loop of collect_deps_recursive. -/
def collectList (d : String) (deps : List (String × Node)) (st : St) :
    Except PyExc St :=
  match deps with
  | [] => .ok st
  | (name, node) :: rest =>
    match collectEntry d name node st with
    | .error e => .error e
    | .ok st2 => collectList d rest st2
termination_by 2 * sizeOf deps
decreasing_by
  · simp <;> omega
  · simp <;> omega

/-- One loop iteration: bundled entries are skipped outright (continue);
otherwise the node is classified and registered, and then - whatever the
classification outcome - the walk recurses into the node's dependencies with
the extended parent path. -/
def collectEntry (d name : String) (node : Node) (st : St) : Except PyExc St :=
  if node.bundled then .ok st
  else
    match registerNode d name node st with
    | .error e => .error e
    | .ok st2 => collectDeps (mkPath d name) node.dependencies st2
termination_by 2 * sizeOf node
decreasing_by
  cases node
  simp [Node.dependencies] <;> omega

end

/-- The whole resolution as main performs it: walk the top-level
"dependencies" map with an empty parent path, starting from the empty
MODULE_MAP. -/
def runResolve (deps : List (String × Node)) : Except PyExc St :=
  collectDeps "" deps ⟨[], []⟩

/-! ## Manifest wellformedness (used to characterise which walks cannot
raise) -/

/-- The "integrity" value of a resolved entry parses without raising:
present, splits on "-" (maxsplit 2) into exactly two parts, and the digest
part base64-decodes. -/
def integrityOk : Option String → Bool
  | none => false
  | some s =>
    match pySplitLim '-' 2 s with
    | [_, dg] => (b64decode dg).isSome
    | _ => false

/-- Whether a "from" value takes the git VCS branch of the classifier. -/
def isGitFrom : Option String → Bool
  | none => false
  | some f =>
    ((urlparse f).scheme == "git+http") || ((urlparse f).scheme == "git+https")

/-- The per-node condition under which the classification step cannot raise
and registers no VCS descriptor: resolved entries carry a parseable
integrity, and no git-scheme "from" entry appears. -/
def nodeHeadSafe (node : Node) : Bool :=
  match node.resolved with
  | some _ => integrityOk node.integrity
  | none => !isGitFrom node.fromField

/-- nodeHeadSafe for every node of a dependency forest. -/
def depsSafe : List (String × Node) → Bool
  | [] => true
  | (_, Node.mk b r i f ds) :: rest =>
    nodeHeadSafe (Node.mk b r i f ds) && depsSafe ds && depsSafe rest

/-- Every registry slot holds a registry-resolved descriptor. -/
def regOnly (reg : Registry) : Prop :=
  ∀ p ∈ reg, ∃ rd : RegDesc, (Prod.snd p).desc = Desc.reg rd

/-! ## The checksum writer (main, --checksums) -/

/-- The loop body of the checksum writer: one line
"ALGO (fn) = chksum" per entry, in sorted filename order.  The Python code
reads MODULE_MAP[fn]["algo"] unconditionally; a VCS entry has no "algo"
key, so that lookup raises KeyError.  (On a raise the model reports only
the exception; the lines the Python process had already written to the
file before dying are not represented.) -/
def checksumLinesGo : List (String × Entry) → Except PyExc (List String)
  | [] => .ok []
  | (fn, e) :: rest =>
    match e.desc with
    | .reg rd =>
      match checksumLinesGo rest with
      | .error ex => .error ex
      | .ok ls => .ok ((pyUpper rd.algo ++ " (" ++ fn ++ ") = " ++ rd.chksum) :: ls)
    | .vcs _ => .error (.keyError "algo")

/-- The checksum writer over the whole registry (sorted iteration). -/
def checksumLines (reg : Registry) : Except PyExc (List String) :=
  checksumLinesGo (sortByKey reg)

/-! ## The downloader (main, --download)

Filesystem, subprocess and network effects are abstracted into oracles
carried by a World value; the control flow (including which exceptions are
caught where) mirrors the source.  hashlib is abstracted as the hashHex
oracle (the model assumes the stored algorithm name is one hashlib.new
accepts). -/

structure World where
  files : List (String × List Nat)
  dirs : List String
  remoteUpdateOk : String → Bool
  cloneOk : String → Bool
  archive : String → String → Option (List Nat)
  http : String → Bool → Except Unit (List Nat)
  hashHex : String → List Nat → String
  writeOk : String → Bool

def fsLookup : List (String × List Nat) → String → Option (List Nat)
  | [], _ => none
  | (k, v) :: rest, fn => if k = fn then some v else fsLookup rest fn

def fsSet : List (String × List Nat) → String → List Nat → List (String × List Nat)
  | [], fn, data => [(fn, data)]
  | (k, v) :: rest, fn, data =>
    if k = fn then (k, data) :: rest else (k, v) :: fsSet rest fn data

def fsDel : List (String × List Nat) → String → List (String × List Nat)
  | [], _ => []
  | (k, v) :: rest, fn => if k = fn then fsDel rest fn else (k, v) :: fsDel rest fn

/-- One iteration of the download loop for artifact fn.  A .error result is
an uncaught Python exception, which aborts the whole loop; .ok carries the
updated world and log and the loop continues.  For VCS artifacts: remote
update (when the clone directory exists) or bare clone, then git archive
into fn; each failure is logged and the loop continues.  For registry
artifacts: skip when the file exists and --download-skip-existing is set;
otherwise fetch (urlopen is OUTSIDE the try/except HTTPError in the source,
so an HTTP error propagates), hash and compare, and on a match write
fn.new and rename it over fn.  A failed open of fn.new is caught and
logged, but the rename in the finally block then raises uncaught OSError
unless a stale fn.new file exists. -/
def downloadOne (skipExisting : Bool) (fn : String) (e : Entry) (w : World)
    (logs : List Log) : Except PyExc (World × List Log) :=
  match e.desc with
  | .vcs v =>
    let dir := v.basename
    let afterClone : Option World :=
      if w.dirs.contains dir then
        if w.remoteUpdateOk dir then some w else none
      else
        if w.cloneOk v.url then some { w with dirs := dir :: w.dirs } else none
    match afterClone with
    | none => .ok (w, logs ++ [.errCloneFailed v.url])
    | some w2 =>
      match w2.archive dir v.branch with
      | none => .ok (w2, logs ++ [.errTarFailed v.url])
      | some bytes => .ok ({ w2 with files := fsSet w2.files fn bytes }, logs)
  | .reg rd =>
    let hasFile := (fsLookup w.files fn).isSome
    if hasFile ∧ skipExisting then
      .ok (w, logs ++ [.infoSkipExisting fn])
    else
      let logs2 := logs ++ [.infoFetching rd.url fn]
      match w.http rd.url hasFile with
      | .error _ => .error .httpError
      | .ok data =>
        let hex := w.hashHex rd.algo data
        if hex ≠ rd.chksum then
          .ok (w, logs2 ++ [.errChecksumFailure fn rd.algo hex rd.chksum])
        else
          if w.writeOk (fn ++ ".new") then
            .ok ({ w with
                   files := fsSet (fsDel (fsSet w.files (fn ++ ".new") data)
                     (fn ++ ".new")) fn data }, logs2)
          else
            match fsLookup w.files (fn ++ ".new") with
            | some stale =>
              .ok ({ w with files := fsSet (fsDel w.files (fn ++ ".new")) fn stale },
                   logs2 ++ [.errOSError])
            | none => .error .osError

/-- The download loop over an already-sorted list of registry items. -/
def downloadGo (skipExisting : Bool) :
    List (String × Entry) → World → List Log → Except PyExc (World × List Log)
  | [], w, logs => .ok (w, logs)
  | (fn, e) :: rest, w, logs =>
    match downloadOne skipExisting fn e w logs with
    | .error ex => .error ex
    | .ok (w2, logs2) => downloadGo skipExisting rest w2 logs2

/-- The download phase of main: iterate MODULE_MAP in sorted filename
order. -/
def downloadAll (skipExisting : Bool) (reg : Registry) (w : World) :
    Except PyExc (World × List Log) :=
  downloadGo skipExisting (sortByKey reg) w []

/-! ## Concrete inputs used in the theorems below -/

/-- A VCS dependency node (git+https, no fragment). -/
def vcsDemoNode : Node :=
  .mk false none none (some "git+https://example.com/x/repo.git") []

/-- The descriptor vcsDemoNode registers. -/
def vcsDemoDesc : Desc :=
  .vcs ⟨"git", "master", "repo", "https://example.com/x/repo.git"⟩

/-- A registry-resolved dependency node. -/
def regDemoNode : Node :=
  .mk false (some "https://registry.example.com/x/-/x-1.0.0.tgz")
    (some "sha512-TWFu") none []

/-- A resolved node whose dict has no "integrity" key. -/
def badDemoNode : Node :=
  .mk false (some "https://registry.example.com/y/-/y-1.0.0.tgz") none none []

/-- A registry holding one VCS artifact. -/
def vcsDemoRegistry : Registry :=
  [("repo-master.tgz", ⟨vcsDemoDesc, {"node_modules/a"}⟩)]

/-- A registry holding one registry-resolved artifact. -/
def regDemoRegistry : Registry :=
  [("x-1.0.0.tgz",
    ⟨.reg ⟨"https://registry.example.com/x/-/x-1.0.0.tgz", "sha512", "4d616e"⟩,
     {"node_modules/a"}⟩)]

/-- The state resolving [("a", regDemoNode)] produces. -/
def regDemoSt : St :=
  ⟨regDemoRegistry, []⟩

/-- A manifest whose second (in sorted order) entry is resolved but has no
integrity: the walk processes "good" and then raises. -/
def c4DemoDeps : List (String × Node) :=
  [("good", regDemoNode), ("zbad", badDemoNode)]

/-- A manifest exercising every recoverable warning and error of the walk:
a conflicting duplicate filename, a missing source and an unsupported
source scheme. -/
def c4SafeDeps : List (String × Node) :=
  [("dup1", .mk false (some "https://a.example.com/dup.tgz") (some "sha512-TWFu") none []),
   ("dup2", .mk false (some "https://b.example.com/dup.tgz") (some "sha512-TWFu") none []),
   ("miss", .mk false none none none []),
   ("unsup", .mk false none none (some "svn+https://example.com/r") [])]

/-- A world whose every fetch raises an HTTP error. -/
def httpErrWorld : World :=
  ⟨[], [], fun _ => true, fun _ => true, fun _ _ => none,
   fun _ _ => .error (), fun _ _ => "", fun _ => true⟩

/-- A world whose every git clone fails. -/
def cloneFailWorld : World :=
  ⟨[], [], fun _ => false, fun _ => false, fun _ _ => none,
   fun _ _ => .error (), fun _ _ => "", fun _ => false⟩

/-- A world whose fetches succeed but hash to a wrong digest. -/
def mismatchWorld : World :=
  ⟨[], [], fun _ => true, fun _ => true, fun _ _ => none,
   fun _ _ => .ok [1], fun _ _ => "00", fun _ => true⟩

/-! ## Unfolding equations for the walk (the definitions are compiled by
well-founded recursion, so rewriting goes through these lemmas) -/

theorem collectDeps_eq (d : String) (deps : List (String × Node)) (st : St) :
    collectDeps d deps st = collectList d (sortByKey deps) st := by
  rw [collectDeps]

theorem collectList_nil (d : String) (st : St) :
    collectList d [] st = .ok st := by
  rw [collectList]

theorem collectList_cons (d name : String) (node : Node)
    (rest : List (String × Node)) (st : St) :
    collectList d ((name, node) :: rest) st =
      match collectEntry d name node st with
      | .error e => .error e
      | .ok st2 => collectList d rest st2 := by
  rw [collectList]

theorem collectEntry_eq (d name : String) (node : Node) (st : St) :
    collectEntry d name node st =
      if node.bundled then .ok st
      else
        match registerNode d name node st with
        | .error e => .error e
        | .ok st2 => collectDeps (mkPath d name) node.dependencies st2 := by
  rw [collectEntry]

/-! ## Registry dictionary lemmas -/

theorem rlookup_rset_self (reg : Registry) (fn : String) (e : Entry) :
    rlookup (rset reg fn e) fn = some e := by
  induction reg with
  | nil => simp [rset, rlookup]
  | cons q rest ih =>
    simp only [rset]
    split
    · simp only [rlookup]
      split <;> simp_all
    · simp only [rlookup]
      split <;> simp_all

theorem rlookup_rset_other (reg : Registry) (fn fn2 : String) (e : Entry)
    (h : fn2 ≠ fn) : rlookup (rset reg fn e) fn2 = rlookup reg fn2 := by
  induction reg with
  | nil => simp [rset, rlookup, Ne.symm h]
  | cons q rest ih =>
    obtain ⟨k, v⟩ := q
    by_cases hk : k = fn
    · subst hk
      simp only [rset, if_pos rfl, rlookup]
      simp [Ne.symm h]
    · simp only [rset, if_neg hk, rlookup]
      split <;> simp_all

theorem rlookup_addPath_self (reg : Registry) (fn p : String) (e : Entry)
    (h : rlookup reg fn = some e) :
    rlookup (addPath reg fn p) fn = some ⟨e.desc, insert p e.path⟩ := by
  induction reg with
  | nil => simp [rlookup] at h
  | cons q rest ih =>
    obtain ⟨k, v⟩ := q
    by_cases hk : k = fn
    · subst hk
      simp only [rlookup, if_pos rfl] at h
      cases h
      simp [addPath, rlookup]
    · simp only [rlookup, if_neg hk] at h
      simp only [addPath, if_neg hk, rlookup]
      exact ih h

theorem rlookup_addPath_other (reg : Registry) (fn fn2 p : String)
    (h : fn2 ≠ fn) : rlookup (addPath reg fn p) fn2 = rlookup reg fn2 := by
  induction reg with
  | nil => simp [addPath, rlookup]
  | cons q rest ih =>
    obtain ⟨k, v⟩ := q
    by_cases hk : k = fn
    · subst hk
      simp only [addPath, if_pos rfl, rlookup]
      simp only [if_neg (Ne.symm h)]
      exact ih
    · simp only [addPath, if_neg hk, rlookup]
      split <;> simp_all

/-! ## Case lemmas for registerNode -/

theorem registerNode_reg_fresh {d name url integ algo dg : String}
    {bytes : List Nat} {node : Node} {st : St}
    (hres : node.resolved = some url) (hint : node.integrity = some integ)
    (hsplit : pySplitLim '-' 2 integ = [algo, dg])
    (hdec : b64decode dg = some bytes)
    (hnew : rlookup st.reg (derivedFn name url) = none) :
    registerNode d name node st =
      .ok ⟨addPath (rset st.reg (derivedFn name url)
              ⟨.reg ⟨url, algo, hexlify bytes⟩, ∅⟩)
             (derivedFn name url) (mkPath d name), st.logs⟩ := by
  simp only [registerNode, hres, hint, hsplit, hdec, hnew]

theorem registerNode_reg_dup {d name url integ algo dg : String}
    {bytes : List Nat} {node : Node} {st : St} {ps : Finset String}
    (hres : node.resolved = some url) (hint : node.integrity = some integ)
    (hsplit : pySplitLim '-' 2 integ = [algo, dg])
    (hdec : b64decode dg = some bytes)
    (hold : rlookup st.reg (derivedFn name url) =
      some ⟨.reg ⟨url, algo, hexlify bytes⟩, ps⟩) :
    registerNode d name node st =
      .ok ⟨addPath st.reg (derivedFn name url) (mkPath d name), st.logs⟩ := by
  simp only [registerNode, hres, hint, hsplit, hdec, hold]
  simp

theorem registerNode_reg_conflict {d name url integ algo dg : String}
    {bytes : List Nat} {node : Node} {st : St} {rd : RegDesc} {ps : Finset String}
    (hres : node.resolved = some url) (hint : node.integrity = some integ)
    (hsplit : pySplitLim '-' 2 integ = [algo, dg])
    (hdec : b64decode dg = some bytes)
    (hold : rlookup st.reg (derivedFn name url) = some ⟨.reg rd, ps⟩)
    (hne : ¬(rd.url = url ∧ rd.algo = algo ∧ rd.chksum = hexlify bytes)) :
    registerNode d name node st =
      .ok ⟨addPath st.reg (derivedFn name url) (mkPath d name),
           st.logs ++ [.errMismatch name rd.url url rd.algo rd.chksum algo
             (hexlify bytes)]⟩ := by
  simp only [registerNode, hres, hint, hsplit, hdec, hold]
  rw [if_pos (by tauto)]

theorem registerNode_vcsSlot_keyError {d name url integ algo dg : String}
    {bytes : List Nat} {node : Node} {st : St} {v : VcsDesc} {ps : Finset String}
    (hres : node.resolved = some url) (hint : node.integrity = some integ)
    (hsplit : pySplitLim '-' 2 integ = [algo, dg])
    (hdec : b64decode dg = some bytes)
    (hold : rlookup st.reg (derivedFn name url) = some ⟨.vcs v, ps⟩) :
    registerNode d name node st = .error (.keyError "algo") := by
  simp only [registerNode, hres, hint, hsplit, hdec, hold]

theorem registerNode_missing_integrity {d name url : String} {node : Node}
    {st : St}
    (hres : node.resolved = some url) (hint : node.integrity = none) :
    registerNode d name node st = .error (.keyError "integrity") := by
  simp only [registerNode, hres, hint]

theorem registerNode_vcs {d name fromUrl sch : String} {node : Node} {st : St}
    (hres : node.resolved = none) (hfrom : node.fromField = some fromUrl)
    (hscheme : (urlparse fromUrl).scheme = "git+http" ∨
      (urlparse fromUrl).scheme = "git+https")
    (hsplit : pySplitAll '+' (urlparse fromUrl).scheme = ["git", sch]) :
    registerNode d name node st =
      .ok ⟨addPath (rset st.reg (vcsFn (urlparse fromUrl))
             ⟨.vcs ⟨"git", vcsBranch (urlparse fromUrl), vcsBase (urlparse fromUrl),
                    vcsUrl sch (urlparse fromUrl)⟩, ∅⟩)
             (vcsFn (urlparse fromUrl)) (mkPath d name), st.logs⟩ := by
  simp only [registerNode, hres, hfrom]
  rw [if_pos hscheme, hsplit]

theorem registerNode_unsupported {d name fromUrl : String} {node : Node} {st : St}
    (hres : node.resolved = none) (hfrom : node.fromField = some fromUrl)
    (hscheme : ¬((urlparse fromUrl).scheme = "git+http" ∨
      (urlparse fromUrl).scheme = "git+https")) :
    registerNode d name node st =
      .ok ⟨st.reg, st.logs ++ [.warnUnsupported name fromUrl]⟩ := by
  simp only [registerNode, hres, hfrom]
  rw [if_neg hscheme]

theorem registerNode_noDownload {d name : String} {node : Node} {st : St}
    (hres : node.resolved = none) (hfrom : node.fromField = none) :
    registerNode d name node st =
      .ok ⟨st.reg, st.logs ++ [.warnNoDownload name]⟩ := by
  simp only [registerNode, hres, hfrom]


/-! ## Step lemmas for evaluating the walk on concrete manifests -/

theorem collectList_cons_ok {d name : String} {node : Node}
    {rest : List (String × Node)} {st st2 : St} {r : Except PyExc St}
    (h1 : collectEntry d name node st = .ok st2)
    (h2 : collectList d rest st2 = r) :
    collectList d ((name, node) :: rest) st = r := by
  rw [collectList_cons, h1]
  exact h2

theorem collectList_cons_err {d name : String} {node : Node}
    {rest : List (String × Node)} {st : St} {e : PyExc}
    (h1 : collectEntry d name node st = .error e) :
    collectList d ((name, node) :: rest) st = .error e := by
  rw [collectList_cons, h1]

theorem collectEntry_step {d name : String} {node : Node} {st st2 : St}
    {r : Except PyExc St}
    (hb : node.bundled = false)
    (h1 : registerNode d name node st = .ok st2)
    (h2 : collectDeps (mkPath d name) node.dependencies st2 = r) :
    collectEntry d name node st = r := by
  rw [collectEntry_eq, hb, h1]
  simpa using h2

theorem collectEntry_step_err {d name : String} {node : Node} {st : St}
    {e : PyExc}
    (hb : node.bundled = false)
    (h1 : registerNode d name node st = .error e) :
    collectEntry d name node st = .error e := by
  rw [collectEntry_eq, hb, h1]
  simp

theorem collectDeps_nil (d : String) (st : St) :
    collectDeps d [] st = .ok st := by
  rw [collectDeps_eq]
  exact collectList_nil d st

/-! ## Further helper lemmas -/

theorem depsSafe_nil : depsSafe [] = true := by
  rw [depsSafe]

theorem depsSafe_cons (n : String) (b : Bool) (r i f : Option String)
    (ds rest : List (String × Node)) :
    depsSafe ((n, Node.mk b r i f ds) :: rest) =
      (nodeHeadSafe (Node.mk b r i f ds) && depsSafe ds && depsSafe rest) := by
  rw [depsSafe]

theorem insertByKey_sizeOf {α : Type} [SizeOf α] (p : String × α)
    (l : List (String × α)) :
    sizeOf (insertByKey p l) = 1 + sizeOf p + sizeOf l := by
  induction l with
  | nil => simp [insertByKey]
  | cons q rest ih =>
    simp only [insertByKey]
    split <;> simp [List.cons.sizeOf_spec, ih] <;> omega

theorem sortByKey_sizeOf {α : Type} [SizeOf α] (l : List (String × α)) :
    sizeOf (sortByKey l) = sizeOf l := by
  induction l with
  | nil => rfl
  | cons p rest ih =>
    simp only [sortByKey]
    rw [insertByKey_sizeOf]
    simp [List.cons.sizeOf_spec, ih] <;> omega

theorem mem_insertByKey {α : Type} (p q : String × α) (l : List (String × α)) :
    q ∈ insertByKey p l ↔ q = p ∨ q ∈ l := by
  induction l with
  | nil => simp [insertByKey]
  | cons r rest ih =>
    simp only [insertByKey]
    split
    · simp
    · simp only [List.mem_cons, ih]
      tauto

theorem mem_sortByKey {α : Type} (q : String × α) (l : List (String × α)) :
    q ∈ sortByKey l ↔ q ∈ l := by
  induction l with
  | nil => simp [sortByKey]
  | cons p rest ih =>
    simp only [sortByKey, mem_insertByKey, List.mem_cons, ih]

/-- Looking up after the VCS-style overwrite: rset to a fresh entry with an
empty path set, followed by addPath of the current path. -/
theorem rlookup_after_overwrite (reg : Registry) (fnV p fn : String)
    (dsc : Desc) (e : Entry) (hfn : rlookup reg fn = some e) :
    ∃ e2, rlookup (addPath (rset reg fnV ⟨dsc, ∅⟩) fnV p) fn = some e2 ∧
      (fn ≠ fnV → e2 = e) ∧ (fn = fnV → e2 = ⟨dsc, {p}⟩) := by
  by_cases hf : fn = fnV
  · subst hf
    refine ⟨⟨dsc, {p}⟩, ?_, fun h => absurd rfl h, fun _ => rfl⟩
    have h1 := rlookup_rset_self reg fn ⟨dsc, ∅⟩
    have h2 := rlookup_addPath_self _ fn p _ h1
    simpa using h2
  · refine ⟨e, ?_, fun _ => rfl, fun h => absurd h hf⟩
    rw [rlookup_addPath_other _ _ _ _ hf, rlookup_rset_other _ _ _ _ hf]
    exact hfn

/-- Looking up after a bare addPath: the slot's path set can only grow. -/
theorem rlookup_after_addPath (reg : Registry) (fnR p fn : String) (e : Entry)
    (hfn : rlookup reg fn = some e) :
    ∃ e2, rlookup (addPath reg fnR p) fn = some e2 ∧ e.path ⊆ e2.path := by
  by_cases hf : fn = fnR
  · subst hf
    exact ⟨⟨e.desc, insert p e.path⟩, rlookup_addPath_self _ _ _ _ hfn,
      Finset.subset_insert _ _⟩
  · refine ⟨e, ?_, subset_rfl⟩
    rw [rlookup_addPath_other _ _ _ _ hf]
    exact hfn

/-- Resolving the one-entry manifest [("a", regDemoNode)]. -/
theorem regDemoRun : runResolve [("a", regDemoNode)] = .ok regDemoSt := by
  rw [runResolve, collectDeps_eq]
  have hs : sortByKey [("a", regDemoNode)] = [("a", regDemoNode)] := rfl
  rw [hs]
  have h1 : registerNode "" "a" regDemoNode ⟨[], []⟩ = .ok regDemoSt := rfl
  exact collectList_cons_ok (collectEntry_step rfl h1 (collectDeps_nil _ _))
    (collectList_nil _ _)

/-! ## The claims -/

/-- C1 (counterexample): the referencing-path set of a Registry entry can
shrink during the walk.  With two modules "a" and "b" both VCS-referencing
git+https://example.com/x/repo.git, the entry for repo-master.tgz holds
referencing path node_modules/a after the first node is processed, but the
finished walk leaves only node_modules/b: the second VCS node overwrites
the slot instead of accumulating into it. -/
theorem c1_counterexample :
    collectEntry "" "a" vcsDemoNode ⟨[], []⟩ =
      .ok ⟨[("repo-master.tgz", ⟨vcsDemoDesc, {"node_modules/a"}⟩)], []⟩ ∧
    runResolve [("a", vcsDemoNode), ("b", vcsDemoNode)] =
      .ok ⟨[("repo-master.tgz", ⟨vcsDemoDesc, {"node_modules/b"}⟩)], []⟩ ∧
    ¬("node_modules/a" ∈ ({"node_modules/b"} : Finset String)) := by
  refine ⟨?_, ?_, by decide⟩
  · exact collectEntry_step rfl rfl (collectDeps_nil _ _)
  · rw [runResolve, collectDeps_eq]
    have hs : sortByKey [("a", vcsDemoNode), ("b", vcsDemoNode)] =
        [("a", vcsDemoNode), ("b", vcsDemoNode)] := rfl
    rw [hs]
    have h1 : registerNode "" "a" vcsDemoNode ⟨[], []⟩ =
        .ok ⟨[("repo-master.tgz", ⟨vcsDemoDesc, {"node_modules/a"}⟩)], []⟩ := rfl
    have h2 : registerNode "" "b" vcsDemoNode
        ⟨[("repo-master.tgz", ⟨vcsDemoDesc, {"node_modules/a"}⟩)], []⟩ =
        .ok ⟨[("repo-master.tgz", ⟨vcsDemoDesc, {"node_modules/b"}⟩)], []⟩ := rfl
    refine collectList_cons_ok (collectEntry_step rfl h1 (collectDeps_nil _ _)) ?_
    refine collectList_cons_ok (collectEntry_step rfl h2 (collectDeps_nil _ _)) ?_
    exact collectList_nil _ _

/-- C1 (amended): across one successful classification step, the
referencing-path set of every occupied Registry slot either grows (the
registry-resolved branches only ever add the current path) or - exactly
when the step registers a VCS descriptor over that slot - the whole entry
is replaced and the new referencing-path set is precisely the singleton of
the current path. -/
theorem c1_amended (d name : String) (node : Node) (st st2 : St)
    (hok : registerNode d name node st = .ok st2)
    (fn : String) (e : Entry) (hfn : rlookup st.reg fn = some e) :
    ∃ e2, rlookup st2.reg fn = some e2 ∧
      (e.path ⊆ e2.path ∨
       ∃ v : VcsDesc, e2.desc = .vcs v ∧ e2.path = {mkPath d name}) := by
  cases hres : node.resolved with
  | none =>
    cases hfrom : node.fromField with
    | none =>
      rw [registerNode_noDownload hres hfrom] at hok
      cases hok
      exact ⟨e, hfn, Or.inl subset_rfl⟩
    | some f =>
      by_cases hsch : (urlparse f).scheme = "git+http" ∨
          (urlparse f).scheme = "git+https"
      · have hsplit : ∃ sch, pySplitAll '+' (urlparse f).scheme = ["git", sch] := by
          rcases hsch with h | h <;> rw [h] <;> exact ⟨_, rfl⟩
        obtain ⟨sch, hsp⟩ := hsplit
        rw [registerNode_vcs hres hfrom hsch hsp] at hok
        cases hok
        obtain ⟨e2, hl, hne, heq⟩ :=
          rlookup_after_overwrite st.reg (vcsFn (urlparse f)) (mkPath d name) fn
            (Desc.vcs ⟨"git", vcsBranch (urlparse f), vcsBase (urlparse f),
              vcsUrl sch (urlparse f)⟩) e hfn
        by_cases hv : fn = vcsFn (urlparse f)
        · exact ⟨e2, hl, Or.inr ⟨_, by rw [heq hv], by rw [heq hv]⟩⟩
        · exact ⟨e2, hl, Or.inl (by rw [hne hv])⟩
      · rw [registerNode_unsupported hres hfrom hsch] at hok
        cases hok
        exact ⟨e, hfn, Or.inl subset_rfl⟩
  | some url =>
    cases hint : node.integrity with
    | none =>
      rw [registerNode_missing_integrity hres hint] at hok
      exact absurd hok (by simp)
    | some integ =>
      rcases hsp : pySplitLim '-' 2 integ with _ | ⟨algo, _ | ⟨dg, rest⟩⟩
      · simp only [registerNode, hres, hint, hsp] at hok
        exact Except.noConfusion hok
      · simp only [registerNode, hres, hint, hsp] at hok
        exact Except.noConfusion hok
      · cases rest with
        | cons x xs =>
          simp only [registerNode, hres, hint, hsp] at hok
          exact Except.noConfusion hok
        | nil =>
          cases hdec : b64decode dg with
          | none =>
            simp only [registerNode, hres, hint, hsp, hdec] at hok
            exact Except.noConfusion hok
          | some bytes =>
            cases hold : rlookup st.reg (derivedFn name url) with
            | none =>
              rw [registerNode_reg_fresh hres hint hsp hdec hold] at hok
              cases hok
              have hne : fn ≠ derivedFn name url := by
                intro hc
                rw [hc, hold] at hfn
                exact Option.noConfusion hfn
              refine ⟨e, ?_, Or.inl subset_rfl⟩
              rw [rlookup_addPath_other _ _ _ _ hne, rlookup_rset_other _ _ _ _ hne]
              exact hfn
            | some eOld =>
              cases hdesc : eOld.desc with
              | vcs v =>
                have hold2 : rlookup st.reg (derivedFn name url) =
                    some ⟨.vcs v, eOld.path⟩ := by
                  rw [hold]
                  cases eOld
                  simp only at hdesc
                  rw [hdesc]
                rw [registerNode_vcsSlot_keyError hres hint hsp hdec hold2] at hok
                exact absurd hok (by simp)
              | reg rd =>
                have hold2 : rlookup st.reg (derivedFn name url) =
                    some ⟨.reg rd, eOld.path⟩ := by
                  rw [hold]
                  cases eOld
                  simp only at hdesc
                  rw [hdesc]
                by_cases hm : rd.url = url ∧ rd.algo = algo ∧
                    rd.chksum = hexlify bytes
                · have hrd : rd = ⟨url, algo, hexlify bytes⟩ := by
                    obtain ⟨h1, h2, h3⟩ := hm
                    cases rd
                    simp_all
                  subst hrd
                  rw [registerNode_reg_dup hres hint hsp hdec hold2] at hok
                  cases hok
                  obtain ⟨e2, hl, hsub⟩ :=
                    rlookup_after_addPath st.reg (derivedFn name url)
                      (mkPath d name) fn e hfn
                  exact ⟨e2, hl, Or.inl hsub⟩
                · rw [registerNode_reg_conflict hres hint hsp hdec hold2 hm] at hok
                  cases hok
                  obtain ⟨e2, hl, hsub⟩ :=
                    rlookup_after_addPath st.reg (derivedFn name url)
                      (mkPath d name) fn e hfn
                  exact ⟨e2, hl, Or.inl hsub⟩

/-- C1 (witness for the amended theorem): registering the fresh
registry-resolved node regDemoNode leaves the unrelated occupied slot
other.tgz in place with its path set intact. -/
theorem c1_amended_witness :
    ∃ e2, rlookup
        (match registerNode "" "m" regDemoNode
            ⟨[("other.tgz", ⟨vcsDemoDesc, {"p"}⟩)], []⟩ with
         | .ok st2 => st2.reg
         | .error _ => []) "other.tgz" = some e2 ∧
      (({"p"} : Finset String) ⊆ e2.path ∨
       ∃ v : VcsDesc, e2.desc = .vcs v ∧ e2.path = {mkPath "" "m"}) := by
  obtain ⟨e2, hl, hd⟩ := c1_amended "" "m" regDemoNode
    ⟨[("other.tgz", ⟨vcsDemoDesc, {"p"}⟩)], []⟩
    ⟨[("other.tgz", ⟨vcsDemoDesc, {"p"}⟩),
      ("x-1.0.0.tgz",
       ⟨.reg ⟨"https://registry.example.com/x/-/x-1.0.0.tgz", "sha512", "4d616e"⟩,
        {"node_modules/m"}⟩)], []⟩
    rfl "other.tgz" ⟨vcsDemoDesc, {"p"}⟩ rfl
  exact ⟨e2, hl, hd⟩

/-- C2: the checksum writer does not skip VCS-only artifacts - on a
registry holding one VCS entry it raises KeyError("algo"); on a registry of
checksum-carrying artifacts it writes one upper-cased-algorithm line per
artifact. -/
theorem c2_checksum_writer_crashes :
    checksumLines vcsDemoRegistry = .error (.keyError "algo") ∧
    checksumLines regDemoRegistry = .ok ["SHA512 (x-1.0.0.tgz) = 4d616e"] :=
  ⟨rfl, rfl⟩

/-- C8: a bundled node is skipped outright - the walk state is returned
unchanged and its nested dependencies are never visited; the classification
step never inspects the dependencies map; and for every non-bundled node
the loop body is exactly classification followed by recursion into the
node's dependencies under the extended path, whatever the classification
outcome was. -/
theorem c8_recursion_structure :
    (∀ (d name : String) (node : Node) (st : St), node.bundled = true →
      collectEntry d name node st = .ok st) ∧
    (∀ (d name : String) (b : Bool) (r i f : Option String)
        (deps deps2 : List (String × Node)) (st : St),
      registerNode d name (Node.mk b r i f deps) st =
        registerNode d name (Node.mk b r i f deps2) st) ∧
    (∀ (d name : String) (node : Node) (st : St), node.bundled = false →
      collectEntry d name node st =
        match registerNode d name node st with
        | .error e => .error e
        | .ok st2 => collectDeps (mkPath d name) node.dependencies st2) := by
  refine ⟨?_, ?_, ?_⟩
  · intro d name node st hb
    rw [collectEntry_eq, hb]
    simp
  · intro d name b r i f deps deps2 st
    rfl
  · intro d name node st hb
    rw [collectEntry_eq, hb]
    simp

/-- C8 (witness): a bundled node carrying a nested dependency map is
skipped whole. -/
theorem c8_recursion_structure_witness :
    collectEntry "" "a" (Node.mk true none none none [("x", vcsDemoNode)])
      ⟨[], []⟩ = .ok ⟨[], []⟩ :=
  c8_recursion_structure.1 "" "a" (Node.mk true none none none
    [("x", vcsDemoNode)]) ⟨[], []⟩ rfl

/-- C9: the downloader does not survive every single-artifact failure.  An
HTTP error raised by the fetch propagates (urlopen sits outside the
try/except) and aborts the run, while a clone failure and a checksum
mismatch are logged and leave the filesystem untouched, the loop
continuing. -/
theorem c9_http_error_aborts :
    downloadAll false regDemoRegistry httpErrWorld = .error .httpError ∧
    downloadAll false vcsDemoRegistry cloneFailWorld =
      .ok (cloneFailWorld, [.errCloneFailed "https://example.com/x/repo.git"]) ∧
    downloadAll false regDemoRegistry mismatchWorld =
      .ok (mismatchWorld,
        [.infoFetching "https://registry.example.com/x/-/x-1.0.0.tgz"
           "x-1.0.0.tgz",
         .errChecksumFailure "x-1.0.0.tgz" "sha512" "00" "4d616e"]) :=
  ⟨rfl, rfl, rfl⟩

/-- C10: the resolution is a pure function of the manifest - two runs over
the same dependency tree yield registries with the same filenames, the same
lookup results, and entrywise equal descriptors and referencing-path
sets. -/
theorem c10_deterministic (deps : List (String × Node)) (st1 st2 : St)
    (h1 : runResolve deps = .ok st1) (h2 : runResolve deps = .ok st2) :
    st1.reg.map Prod.fst = st2.reg.map Prod.fst ∧
    (∀ fn, rlookup st1.reg fn = rlookup st2.reg fn) ∧
    (∀ fn e1 e2, rlookup st1.reg fn = some e1 → rlookup st2.reg fn = some e2 →
      e1.desc = e2.desc ∧ e1.path = e2.path) := by
  rw [h1] at h2
  cases h2
  refine ⟨rfl, fun _ => rfl, fun fn e1 e2 ha hb => ?_⟩
  rw [ha] at hb
  cases hb
  exact ⟨rfl, rfl⟩

/-- C3: on a registry-resolved collision where the slot already holds a
registry-resolved descriptor, a mismatch in url, algorithm or checksum is
logged as an error carrying the module name and the old and new values, no
exception is raised, the first-seen descriptor is kept unchanged, and in
both the matching and the conflicting case the current path is added to the
slot's referencing paths. -/
theorem c3_conflict_policy (d name url integ algo dg : String)
    (bytes : List Nat) (node : Node) (st : St) (rd : RegDesc) (ps : Finset String)
    (hres : node.resolved = some url) (hint : node.integrity = some integ)
    (hsplit : pySplitLim '-' 2 integ = [algo, dg])
    (hdec : b64decode dg = some bytes)
    (hold : rlookup st.reg (derivedFn name url) = some ⟨.reg rd, ps⟩) :
    (¬(rd.url = url ∧ rd.algo = algo ∧ rd.chksum = hexlify bytes) →
      registerNode d name node st =
        .ok ⟨addPath st.reg (derivedFn name url) (mkPath d name),
             st.logs ++ [.errMismatch name rd.url url rd.algo rd.chksum algo
               (hexlify bytes)]⟩) ∧
    (rd = ⟨url, algo, hexlify bytes⟩ →
      registerNode d name node st =
        .ok ⟨addPath st.reg (derivedFn name url) (mkPath d name), st.logs⟩) ∧
    rlookup (addPath st.reg (derivedFn name url) (mkPath d name))
        (derivedFn name url) = some ⟨.reg rd, insert (mkPath d name) ps⟩ := by
  refine ⟨fun hne => registerNode_reg_conflict hres hint hsplit hdec hold hne,
          fun hrd => ?_, ?_⟩
  · subst hrd
    exact registerNode_reg_dup hres hint hsplit hdec hold
  · exact rlookup_addPath_self st.reg (derivedFn name url) (mkPath d name) _ hold

/-- C3 (witness): a conflicting duplicate of a.tgz is logged, keeps the
first-seen descriptor, raises nothing, and records the new path. -/
theorem c3_conflict_policy_witness :
    registerNode "" "m"
        (Node.mk false (some "https://r.example.com/a.tgz")
          (some "sha512-TWFu") none [])
        ⟨[("a.tgz",
           ⟨.reg ⟨"https://other.example.com/a.tgz", "sha512", "00"⟩, ∅⟩)], []⟩ =
      .ok ⟨[("a.tgz",
             ⟨.reg ⟨"https://other.example.com/a.tgz", "sha512", "00"⟩,
              {"node_modules/m"}⟩)],
           [.errMismatch "m" "https://other.example.com/a.tgz"
              "https://r.example.com/a.tgz" "sha512" "00" "sha512" "4d616e"]⟩ := by
  have h := (c3_conflict_policy "" "m" "https://r.example.com/a.tgz"
      "sha512-TWFu" "sha512" "TWFu" [77, 97, 110]
      (Node.mk false (some "https://r.example.com/a.tgz")
        (some "sha512-TWFu") none [])
      ⟨[("a.tgz",
         ⟨.reg ⟨"https://other.example.com/a.tgz", "sha512", "00"⟩, ∅⟩)], []⟩
      ⟨"https://other.example.com/a.tgz", "sha512", "00"⟩ ∅
      rfl rfl rfl rfl rfl).1 (by decide)
  exact h.trans rfl

/-- C6: from = git+https://example.com/org/repo.git#feature yields filename
repo-feature.tgz, branch feature and stored url
https://example.com/org/repo.git (scheme normalized, fragment stripped);
and every git+http(s) VCS entry whose URI has no fragment defaults the
branch to master, derives basename-master.tgz, and registers a descriptor
with branch master under that filename. -/
theorem c6_vcs_naming :
    (registerNode "" "mod"
        (Node.mk false none none
          (some "git+https://example.com/org/repo.git#feature") []) ⟨[], []⟩ =
      .ok ⟨[("repo-feature.tgz",
             ⟨.vcs ⟨"git", "feature", "repo", "https://example.com/org/repo.git"⟩,
              {"node_modules/mod"}⟩)], []⟩) ∧
    (∀ (d name f : String) (node : Node) (st : St),
      node.resolved = none → node.fromField = some f →
      ((urlparse f).scheme = "git+http" ∨ (urlparse f).scheme = "git+https") →
      (urlparse f).fragment = "" →
      vcsBranch (urlparse f) = "master" ∧
      vcsFn (urlparse f) = vcsBase (urlparse f) ++ "-master.tgz" ∧
      ∃ st2, registerNode d name node st = .ok st2 ∧
        rlookup st2.reg (vcsBase (urlparse f) ++ "-master.tgz") =
          some ⟨.vcs ⟨"git", "master", vcsBase (urlparse f),
                 vcsUrl (if (urlparse f).scheme = "git+http" then "http"
                   else "https") (urlparse f)⟩,
               {mkPath d name}⟩) := by
  have hcat : ∀ s : String, s ++ "-" ++ "master" ++ ".tgz" = s ++ "-master.tgz" := by
    intro s
    rw [String.append_assoc, String.append_assoc]
    rfl
  constructor
  · rfl
  · intro d name f node st hres hfrom hsch hfrag
    have hbr : vcsBranch (urlparse f) = "master" := by
      simp [vcsBranch, hfrag]
    have hfn : vcsFn (urlparse f) = vcsBase (urlparse f) ++ "-master.tgz" := by
      rw [vcsFn, hbr, hcat]
    refine ⟨hbr, hfn, ?_⟩
    have hsp : pySplitAll '+' (urlparse f).scheme =
        ["git", if (urlparse f).scheme = "git+http" then "http" else "https"] := by
      rcases hsch with h | h <;> rw [h] <;> rfl
    refine ⟨_, registerNode_vcs hres hfrom hsch hsp, ?_⟩
    have h1 := rlookup_rset_self st.reg (vcsFn (urlparse f))
      ⟨.vcs ⟨"git", vcsBranch (urlparse f), vcsBase (urlparse f),
        vcsUrl (if (urlparse f).scheme = "git+http" then "http" else "https")
          (urlparse f)⟩, ∅⟩
    have h2 := rlookup_addPath_self _ (vcsFn (urlparse f)) (mkPath d name) _ h1
    rw [← hfn, hbr]
    rw [hbr] at h2
    exact h2

/-- C6 (witness): a fragment-free git+http URI registered at concrete
input. -/
theorem c6_vcs_naming_witness :
    vcsBranch (urlparse "git+http://example.com/org/repo.git") = "master" ∧
    vcsFn (urlparse "git+http://example.com/org/repo.git") =
      vcsBase (urlparse "git+http://example.com/org/repo.git") ++ "-master.tgz" ∧
    ∃ st2, registerNode "" "m"
        (Node.mk false none none
          (some "git+http://example.com/org/repo.git") []) ⟨[], []⟩ =
        .ok st2 ∧
      rlookup st2.reg
          (vcsBase (urlparse "git+http://example.com/org/repo.git") ++
            "-master.tgz") =
        some ⟨.vcs ⟨"git", "master",
               vcsBase (urlparse "git+http://example.com/org/repo.git"),
               vcsUrl (if (urlparse "git+http://example.com/org/repo.git").scheme =
                   "git+http" then "http" else "https")
                 (urlparse "git+http://example.com/org/repo.git")⟩,
             {mkPath "" "m"}⟩ :=
  c6_vcs_naming.2 "" "m" "git+http://example.com/org/repo.git"
    (Node.mk false none none (some "git+http://example.com/org/repo.git") [])
    ⟨[], []⟩ rfl rfl (Or.inl rfl) rfl

/-- C10 (witness): both components at the one-artifact manifest. -/
theorem c10_deterministic_witness :
    regDemoSt.reg.map Prod.fst = regDemoSt.reg.map Prod.fst ∧
    (∀ fn, rlookup regDemoSt.reg fn = rlookup regDemoSt.reg fn) ∧
    (∀ fn e1 e2, rlookup regDemoSt.reg fn = some e1 →
      rlookup regDemoSt.reg fn = some e2 → e1.desc = e2.desc ∧ e1.path = e2.path) :=
  c10_deterministic [("a", regDemoNode)] regDemoSt regDemoSt regDemoRun regDemoRun



/-! ## base64 and integrity-string lemmas (for C5) -/

theorem toList_mk (l : List Char) : (String.mk l).toList = l := rfl

theorem mk_toList (s : String) : String.mk s.toList = s := rfl

theorem b64Index_lt (c : Char) (v : Nat) (h : b64Index c = some v) : v < 64 := by
  simp only [b64Index] at h
  split_ifs at h with h1 h2 h3 h4 h5 <;>
    first
      | (cases h; omega)
      | exact Option.noConfusion h

theorem b64IndexD_lt (c : Char) : (b64Index c).getD 0 < 64 := by
  cases h : b64Index c with
  | none => simp
  | some v => simpa using b64Index_lt c v h

theorem b64DecodeChunks_lt : ∀ (vs : List Nat), (∀ v ∈ vs, v < 64) →
    ∀ b ∈ b64DecodeChunks vs, b < 256
  | v1 :: v2 :: v3 :: v4 :: rest, hv, b, hb => by
    simp only [b64DecodeChunks, List.mem_cons] at hb
    have h1 : v1 < 64 := hv v1 (by simp)
    have h2 : v2 < 64 := hv v2 (by simp)
    have h3 : v3 < 64 := hv v3 (by simp)
    have h4 : v4 < 64 := hv v4 (by simp)
    rcases hb with rfl | rfl | rfl | hb
    · omega
    · omega
    · omega
    · exact b64DecodeChunks_lt rest (fun v hvm => hv v (by simp [hvm])) b hb
  | [v1, v2, v3], hv, b, hb => by
    simp only [b64DecodeChunks, List.mem_cons] at hb
    have h1 : v1 < 64 := hv v1 (by simp)
    have h2 : v2 < 64 := hv v2 (by simp)
    have h3 : v3 < 64 := hv v3 (by simp)
    rcases hb with rfl | rfl | hb
    · omega
    · omega
    · simp at hb
  | [v1, v2], hv, b, hb => by
    simp only [b64DecodeChunks, List.mem_cons] at hb
    have h1 : v1 < 64 := hv v1 (by simp)
    have h2 : v2 < 64 := hv v2 (by simp)
    rcases hb with rfl | hb
    · omega
    · simp at hb
  | [_], _, b, hb => by simp [b64DecodeChunks] at hb
  | [], _, b, hb => by simp [b64DecodeChunks] at hb

theorem hexDigitChar_lower : ∀ n, n < 16 → isLowerHexChar (hexDigitChar n) = true := by
  decide

theorem hexlify_lower (bs : List Nat) (hb : ∀ b ∈ bs, b < 256) :
    (hexlify bs).toList.all isLowerHexChar = true := by
  induction bs with
  | nil => rfl
  | cons b rest ih =>
    have h256 : b < 256 := hb b (by simp)
    have h1 : isLowerHexChar (hexDigitChar (b / 16)) = true :=
      hexDigitChar_lower _ (by omega)
    have h2 : isLowerHexChar (hexDigitChar (b % 16)) = true :=
      hexDigitChar_lower _ (by omega)
    have ihh := ih (fun x hx => hb x (by simp [hx]))
    simp only [hexlify, toList_mk, List.foldr_cons, List.all_cons, h1, h2,
      Bool.true_and] at ihh ⊢
    exact ihh

theorem pySplitAux_no_sep (sep : Char) : ∀ (n : Nat) (l acc : List Char),
    sep ∉ l → pySplitAux sep n l acc = [acc.reverse ++ l]
  | _, [], acc, _ => by simp [pySplitAux]
  | 0, c :: rest, acc, _ => by simp [pySplitAux]
  | m + 1, c :: rest, acc, h => by
    have hc : ¬(c = sep) := fun hcc => h (by simp [hcc])
    have hrest : sep ∉ rest := fun hr => h (by simp [hr])
    simp only [pySplitAux, if_neg hc]
    rw [pySplitAux_no_sep sep (m + 1) rest (c :: acc) hrest]
    simp

theorem pySplitAux_sep_split (sep : Char) : ∀ (m : Nat) (l1 l2 acc : List Char),
    sep ∉ l1 →
    pySplitAux sep (m + 1) (l1 ++ sep :: l2) acc =
      (acc.reverse ++ l1) :: pySplitAux sep m l2 []
  | m, [], l2, acc, _ => by simp [pySplitAux]
  | m, c :: rest, l2, acc, h => by
    have hc : ¬(c = sep) := fun hcc => h (by simp [hcc])
    have hrest : sep ∉ rest := fun hr => h (by simp [hr])
    simp only [List.cons_append, pySplitAux, if_neg hc, List.append_eq]
    rw [pySplitAux_sep_split sep m rest l2 (c :: acc) hrest]
    simp

theorem pySplitLim_integrity (algo dg : String)
    (ha : ('-' : Char) ∉ algo.toList) (hd : ('-' : Char) ∉ dg.toList) :
    pySplitLim '-' 2 (algo ++ "-" ++ dg) = [algo, dg] := by
  unfold pySplitLim
  have hlist : (algo ++ "-" ++ dg).toList = algo.toList ++ '-' :: dg.toList := by
    simp [String.toList, String.data_append]
  rw [hlist, show (2 : Nat) = 1 + 1 from rfl,
    pySplitAux_sep_split '-' 1 algo.toList dg.toList [] ha,
    pySplitAux_no_sep '-' 1 dg.toList [] hd]
  simp [mk_toList]

theorem b64decode_wf (data : List Char) (t : Nat)
    (hdata : ∀ c ∈ data, (b64Index c).isSome = true)
    (ht : t ≤ 2) (hlen : (data.length + t) % 4 = 0) (hmod : data.length % 4 ≠ 1) :
    b64decode (String.mk (data ++ List.replicate t '=')) =
      some (b64DecodeChunks (data.map (fun c => (b64Index c).getD 0))) := by
  have hne : ∀ c ∈ data, ¬(c = '=') := by
    intro c hc hceq
    have hcs := hdata c hc
    rw [hceq] at hcs
    exact absurd hcs (by decide)
  have htw0 : ∀ l : List Char, (∀ c ∈ l, ¬(c = '=')) →
      l.takeWhile (fun c => c == '=') = [] := by
    intro l hl
    cases l with
    | nil => rfl
    | cons c rest =>
      have hcf : (c == '=') = false := by
        simpa using hl c (by simp)
      simp [List.takeWhile_cons, hcf]
  have htw1 : ∀ (k : Nat) (l : List Char), (∀ c ∈ l, ¬(c = '=')) →
      (List.replicate k '=' ++ l).takeWhile (fun c => c == '=') =
        List.replicate k '=' := by
    intro k
    induction k with
    | zero =>
      intro l hl
      simpa using htw0 l hl
    | succ n ih =>
      intro l hl
      simp [List.replicate_succ, List.takeWhile_cons, ih l hl]
  simp only [b64decode, toList_mk]
  have hfilter : (data ++ List.replicate t '=').filter
      (fun c => (b64Index c).isSome || c == '=') = data ++ List.replicate t '=' := by
    rw [List.filter_eq_self]
    intro a hamem
    rcases List.mem_append.mp hamem with hm | hm
    · simp [hdata a hm]
    · simp [List.eq_of_mem_replicate hm]
  rw [hfilter]
  have hrev : (data ++ List.replicate t '=').reverse =
      List.replicate t '=' ++ data.reverse := by
    simp [List.reverse_append]
  have htw : ((data ++ List.replicate t '=').reverse.takeWhile
      (fun c => c == '=')).length = t := by
    rw [hrev, htw1 t data.reverse (fun c hc => hne c (List.mem_reverse.mp hc))]
    simp
  rw [htw]
  have hlen2 : (data ++ List.replicate t '=').length = data.length + t := by
    simp
  have htake : (data ++ List.replicate t '=').take
      ((data ++ List.replicate t '=').length - t) = data := by
    rw [hlen2, Nat.add_sub_cancel]
    exact List.take_left data (List.replicate t '=')
  rw [htake]
  have hany : (data.any fun c => c == '=') = false := by
    simp only [List.any_eq_false]
    intro c hc
    simpa using hne c hc
  rw [hany]
  simp only [Bool.false_eq_true, if_false]
  rw [if_pos ⟨ht, hlen, hmod⟩]

/-- C5: an integrity value of the form algorithm-base64digest (the
algorithm without dashes, the digest standard base64 with its padding) is
split at its first dash into the algorithm and the digest, the digest
base64-decodes to bytes that are re-encoded as lowercase hexadecimal, and
registering such a node succeeds, storing the algorithm and the lowercase
hex digest as the checksum descriptor. -/
theorem c5_integrity_parse (d name url algo : String) (data : List Char)
    (t : Nat) (node : Node) (st : St)
    (ha : ('-' : Char) ∉ algo.toList)
    (hdata : ∀ c ∈ data, (b64Index c).isSome = true)
    (ht : t ≤ 2) (hlen : (data.length + t) % 4 = 0) (hmod : data.length % 4 ≠ 1)
    (hres : node.resolved = some url)
    (hint : node.integrity =
      some (algo ++ "-" ++ String.mk (data ++ List.replicate t '=')))
    (hnew : rlookup st.reg (derivedFn name url) = none) :
    ∃ bytes,
      pySplitLim '-' 2 (algo ++ "-" ++ String.mk (data ++ List.replicate t '=')) =
        [algo, String.mk (data ++ List.replicate t '=')] ∧
      b64decode (String.mk (data ++ List.replicate t '=')) = some bytes ∧
      (hexlify bytes).toList.all isLowerHexChar = true ∧
      registerNode d name node st =
        .ok ⟨addPath (rset st.reg (derivedFn name url)
               ⟨.reg ⟨url, algo, hexlify bytes⟩, ∅⟩)
              (derivedFn name url) (mkPath d name), st.logs⟩ := by
  have hdg : ('-' : Char) ∉ (String.mk (data ++ List.replicate t '=')).toList := by
    rw [toList_mk]
    intro hmem
    rcases List.mem_append.mp hmem with hm | hm
    · exact absurd (hdata _ hm) (by decide)
    · exact absurd (List.eq_of_mem_replicate hm) (by decide)
  have hsplit := pySplitLim_integrity algo (String.mk (data ++ List.replicate t '='))
    ha hdg
  have hdec := b64decode_wf data t hdata ht hlen hmod
  refine ⟨_, hsplit, hdec, ?_,
    registerNode_reg_fresh hres hint hsplit hdec hnew⟩
  refine hexlify_lower _ ?_
  intro b hb
  refine b64DecodeChunks_lt _ ?_ b hb
  intro v hv
  obtain ⟨c, hc, hcv⟩ := List.mem_map.mp hv
  exact hcv ▸ b64IndexD_lt c

/-- C5 (witness): sha512-TWFu parses to the lowercase hex digest 4d616e and
registers. -/
theorem c5_integrity_parse_witness :
    ∃ bytes,
      pySplitLim '-' 2 ("sha512" ++ "-" ++
          String.mk ("TWFu".toList ++ List.replicate 0 '=')) =
        ["sha512", String.mk ("TWFu".toList ++ List.replicate 0 '=')] ∧
      b64decode (String.mk ("TWFu".toList ++ List.replicate 0 '=')) = some bytes ∧
      (hexlify bytes).toList.all isLowerHexChar = true ∧
      registerNode "" "m"
          (Node.mk false (some "https://r.example.com/a.tgz")
            (some ("sha512" ++ "-" ++
              String.mk ("TWFu".toList ++ List.replicate 0 '='))) none [])
          ⟨[], []⟩ =
        .ok ⟨addPath (rset ([] : Registry) (derivedFn "m" "https://r.example.com/a.tgz")
               ⟨.reg ⟨"https://r.example.com/a.tgz", "sha512", hexlify bytes⟩, ∅⟩)
              (derivedFn "m" "https://r.example.com/a.tgz")
              (mkPath "" "m"), []⟩ :=
  c5_integrity_parse "" "m" "https://r.example.com/a.tgz" "sha512" "TWFu".toList 0
    (Node.mk false (some "https://r.example.com/a.tgz")
      (some ("sha512" ++ "-" ++ String.mk ("TWFu".toList ++ List.replicate 0 '=')))
      none [])
    ⟨[], []⟩ (by decide) (by decide) (by decide) (by decide) (by decide) rfl rfl rfl

/-! ## Walk totality machinery (for C4) -/

theorem rlookup_mem (reg : Registry) (fn : String) (e : Entry)
    (h : rlookup reg fn = some e) : (fn, e) ∈ reg := by
  induction reg with
  | nil => simp [rlookup] at h
  | cons q rest ih =>
    obtain ⟨k, v⟩ := q
    by_cases hk : k = fn
    · subst hk
      simp only [rlookup, if_pos rfl] at h
      cases h
      simp
    · simp only [rlookup, if_neg hk] at h
      simp [ih h]

theorem regOnly_addPath (reg : Registry) (fn p : String) (h : regOnly reg) :
    regOnly (addPath reg fn p) := by
  induction reg with
  | nil =>
    intro x hx
    simp [addPath] at hx
  | cons q rest ih =>
    obtain ⟨k, v⟩ := q
    have hrest : regOnly rest := fun y hy => h y (by simp [hy])
    have hk := h (k, v) (by simp)
    intro x hx
    simp only [addPath] at hx
    split at hx <;>
      (rcases List.mem_cons.mp hx with rfl | hx2
       · simpa using hk
       · exact ih hrest x hx2)

theorem regOnly_rset_reg (reg : Registry) (fn : String) (rd : RegDesc)
    (ps : Finset String) (h : regOnly reg) :
    regOnly (rset reg fn ⟨.reg rd, ps⟩) := by
  induction reg with
  | nil =>
    intro x hx
    simp only [rset, List.mem_singleton] at hx
    subst hx
    exact ⟨rd, rfl⟩
  | cons q rest ih =>
    obtain ⟨k, v⟩ := q
    have hrest : regOnly rest := fun y hy => h y (by simp [hy])
    have hk := h (k, v) (by simp)
    intro x hx
    simp only [rset] at hx
    split at hx
    · rcases List.mem_cons.mp hx with rfl | hx2
      · exact ⟨rd, rfl⟩
      · exact hrest x hx2
    · rcases List.mem_cons.mp hx with rfl | hx2
      · simpa using hk
      · exact ih hrest x hx2

theorem integrityOk_spec (i : Option String) (h : integrityOk i = true) :
    ∃ s algo dg bytes, i = some s ∧ pySplitLim '-' 2 s = [algo, dg] ∧
      b64decode dg = some bytes := by
  cases i with
  | none => simp [integrityOk] at h
  | some s =>
    rcases hsp : pySplitLim '-' 2 s with _ | ⟨a, _ | ⟨b, _ | ⟨x, xs⟩⟩⟩ <;>
      simp [integrityOk, hsp] at h
    rcases Option.isSome_iff_exists.mp h with ⟨bytes, hdec⟩
    exact ⟨s, a, b, bytes, rfl, hsp, hdec⟩

theorem registerNode_safe (d name : String) (node : Node) (st : St)
    (hsafe : nodeHeadSafe node = true) (hreg : regOnly st.reg) :
    ∃ st2, registerNode d name node st = .ok st2 ∧ regOnly st2.reg := by
  cases hres : node.resolved with
  | some url =>
    have hio : integrityOk node.integrity = true := by
      simpa [nodeHeadSafe, hres] using hsafe
    obtain ⟨s, algo, dg, bytes, hi, hsp, hdec⟩ := integrityOk_spec _ hio
    cases hold : rlookup st.reg (derivedFn name url) with
    | none =>
      refine ⟨_, registerNode_reg_fresh hres hi hsp hdec hold, ?_⟩
      exact regOnly_addPath _ _ _ (regOnly_rset_reg _ _ _ _ hreg)
    | some eOld =>
      obtain ⟨rd, hrd⟩ := hreg _ (rlookup_mem _ _ _ hold)
      have hold2 : rlookup st.reg (derivedFn name url) =
          some ⟨.reg rd, eOld.path⟩ := by
        rw [hold]
        cases eOld
        simp only at hrd
        rw [hrd]
      by_cases hm : rd.url = url ∧ rd.algo = algo ∧ rd.chksum = hexlify bytes
      · have hrdeq : rd = ⟨url, algo, hexlify bytes⟩ := by
          obtain ⟨h1, h2, h3⟩ := hm
          cases rd
          simp_all
        subst hrdeq
        refine ⟨_, registerNode_reg_dup hres hi hsp hdec hold2, ?_⟩
        exact regOnly_addPath _ _ _ hreg
      · refine ⟨_, registerNode_reg_conflict hres hi hsp hdec hold2 hm, ?_⟩
        exact regOnly_addPath _ _ _ hreg
  | none =>
    cases hfrom : node.fromField with
    | none => exact ⟨_, registerNode_noDownload hres hfrom, hreg⟩
    | some f =>
      have hng : isGitFrom (some f) = false := by
        have hs2 := hsafe
        simp only [nodeHeadSafe, hres, hfrom] at hs2
        simpa using hs2
      have hsch : ¬((urlparse f).scheme = "git+http" ∨
          (urlparse f).scheme = "git+https") := by
        simp only [isGitFrom] at hng
        intro hor
        rcases hor with h | h <;> simp [h] at hng
      exact ⟨_, registerNode_unsupported hres hfrom hsch, hreg⟩

theorem depsSafe_mem : ∀ (deps : List (String × Node)), depsSafe deps = true →
    ∀ q ∈ deps, nodeHeadSafe q.2 = true ∧ depsSafe q.2.dependencies = true := by
  intro deps
  induction deps with
  | nil =>
    intro _ q hq
    simp at hq
  | cons p rest ih =>
    obtain ⟨nm, node⟩ := p
    cases node with
    | mk b r i f ds =>
      intro h q hq
      rw [depsSafe_cons] at h
      simp only [Bool.and_eq_true] at h
      obtain ⟨⟨hhead, hds⟩, hrest⟩ := h
      rcases List.mem_cons.mp hq with rfl | hq2
      · exact ⟨hhead, by simpa [Node.dependencies] using hds⟩
      · exact ih hrest q hq2

theorem collectList_safe_ok : ∀ (n : Nat) (deps : List (String × Node)),
    sizeOf deps ≤ n → ∀ (d : String) (st : St),
    (∀ q ∈ deps, nodeHeadSafe q.2 = true ∧ depsSafe q.2.dependencies = true) →
    regOnly st.reg → ∃ st2, collectList d deps st = .ok st2 ∧ regOnly st2.reg := by
  intro n
  induction n with
  | zero =>
    intro deps hsz
    exfalso
    have h1 : 1 ≤ sizeOf deps := by
      cases deps <;> simp <;> omega
    omega
  | succ m ih =>
    intro deps hsz d st hwf hreg
    cases deps with
    | nil => exact ⟨st, collectList_nil d st, hreg⟩
    | cons p rest =>
      obtain ⟨name, node⟩ := p
      have hnode := hwf (name, node) (by simp)
      simp only [List.cons.sizeOf_spec, Prod.mk.sizeOf_spec] at hsz
      have hrest_sz : sizeOf rest ≤ m := by omega
      have hnode_sz : sizeOf node ≤ m := by omega
      have hnd : sizeOf node.dependencies < sizeOf node := by
        cases node
        simp [Node.dependencies] <;> omega
      cases hb : node.bundled with
      | true =>
        have he : collectEntry d name node st = .ok st := by
          rw [collectEntry_eq, hb]
          simp
        obtain ⟨st2, hrestok, hreg2⟩ := ih rest hrest_sz d st
          (fun q hq => hwf q (by simp [hq])) hreg
        exact ⟨st2, collectList_cons_ok he hrestok, hreg2⟩
      | false =>
        obtain ⟨st1, hr1, hreg1⟩ := registerNode_safe d name node st hnode.1 hreg
        have hdeps : ∀ q ∈ sortByKey node.dependencies,
            nodeHeadSafe q.2 = true ∧ depsSafe q.2.dependencies = true :=
          fun q hq => depsSafe_mem _ hnode.2 q ((mem_sortByKey q _).mp hq)
        have hsize1 : sizeOf (sortByKey node.dependencies) ≤ m := by
          rw [sortByKey_sizeOf]
          omega
        obtain ⟨stm, hrm, hregm⟩ := ih (sortByKey node.dependencies) hsize1
          (mkPath d name) st1 hdeps hreg1
        have he : collectEntry d name node st = .ok stm :=
          collectEntry_step hb hr1 ((collectDeps_eq _ _ _).trans hrm)
        obtain ⟨st2, hrestok, hreg2⟩ := ih rest hrest_sz d stm
          (fun q hq => hwf q (by simp [hq])) hregm
        exact ⟨st2, collectList_cons_ok he hrestok, hreg2⟩

/-- C4 (counterexample): a JSON-wellformed manifest can be fatal after
resolution has begun.  In c4DemoDeps the node "good" is fully registered
first, and then the resolved node "zbad", which has no integrity key, makes
the walk raise KeyError("integrity") - the process dies during resolution,
not before it. -/
theorem c4_counterexample :
    collectEntry "" "good" regDemoNode ⟨[], []⟩ =
      .ok ⟨[("x-1.0.0.tgz",
             ⟨.reg ⟨"https://registry.example.com/x/-/x-1.0.0.tgz", "sha512",
                "4d616e"⟩,
              {"node_modules/good"}⟩)], []⟩ ∧
    collectDeps "" c4DemoDeps ⟨[], []⟩ = .error (.keyError "integrity") := by
  constructor
  · exact collectEntry_step rfl rfl (collectDeps_nil _ _)
  · rw [collectDeps_eq]
    have hs : sortByKey c4DemoDeps = c4DemoDeps := rfl
    rw [hs]
    show collectList "" [("good", regDemoNode), ("zbad", badDemoNode)] _ = _
    have h1 : registerNode "" "good" regDemoNode ⟨[], []⟩ =
        .ok ⟨[("x-1.0.0.tgz",
               ⟨.reg ⟨"https://registry.example.com/x/-/x-1.0.0.tgz", "sha512",
                  "4d616e"⟩,
                {"node_modules/good"}⟩)], []⟩ := rfl
    refine collectList_cons_ok (collectEntry_step rfl h1 (collectDeps_nil _ _)) ?_
    exact collectList_cons_err (collectEntry_step_err rfl rfl)

/-- C4 (amended): the recoverable conditions really are recovered - a walk
over any manifest whose resolved entries all carry a parseable integrity
and which has no git-VCS entries returns normally, whatever unsupported
sources, missing sources and checksum conflicts it contains; but a fatal
error can also strike during the walk (see the counterexample: a resolved
entry without integrity), so a malformed manifest surfaced before
resolution is not the only fatal condition. -/
theorem c4_amended (deps : List (String × Node)) (h : depsSafe deps = true) :
    ∃ st2, runResolve deps = .ok st2 := by
  rw [runResolve, collectDeps_eq]
  have hwf : ∀ q ∈ sortByKey deps,
      nodeHeadSafe q.2 = true ∧ depsSafe q.2.dependencies = true :=
    fun q hq => depsSafe_mem deps h q ((mem_sortByKey q deps).mp hq)
  obtain ⟨st2, hok, _⟩ := collectList_safe_ok (sizeOf (sortByKey deps))
    (sortByKey deps) le_rfl "" ⟨[], []⟩ hwf (fun p hp => by simp at hp)
  exact ⟨st2, hok⟩

/-- C4 (witness): the manifest with a conflicting duplicate, a missing
source and an unsupported source resolves without raising. -/
theorem c4_amended_witness : ∃ st2, runResolve c4SafeDeps = .ok st2 :=
  c4_amended c4SafeDeps
    (by simp only [c4SafeDeps, depsSafe_cons, depsSafe_nil]; decide)

/-- C7: the derived filename of a registry-resolved entry depends only on
the final path segment of the resolved URL (plus the scope prefix when the
module name contains a slash), and two entries with different (unscoped)
module names but identical resolved URL and identical integrity collapse
into a single Registry entry holding both referencing paths and the
first-seen descriptor. -/
theorem c7_filename_collapse (n1 n2 url integ algo dg : String)
    (bytes : List Nat)
    (h1 : pyContains n1 '/' = false) (h2 : pyContains n2 '/' = false)
    (hne : n1 ≠ n2)
    (hsplit : pySplitLim '-' 2 integ = [algo, dg])
    (hdec : b64decode dg = some bytes) :
    (∀ m u1 u2, basename u1 = basename u2 → derivedFn m u1 = derivedFn m u2) ∧
    derivedFn n1 url = basename url ∧
    runResolve [(n1, Node.mk false (some url) (some integ) none []),
                (n2, Node.mk false (some url) (some integ) none [])] =
      .ok ⟨[(basename url,
             ⟨.reg ⟨url, algo, hexlify bytes⟩,
              {mkPath "" n1, mkPath "" n2}⟩)], []⟩ := by
  have hd : ∀ m u1 u2, basename u1 = basename u2 →
      derivedFn m u1 = derivedFn m u2 := by
    intro m u1 u2 hb
    simp only [derivedFn, hb]
  have hd1 : derivedFn n1 url = basename url := by
    simp [derivedFn, h1]
  have hd2 : derivedFn n2 url = basename url := by
    simp [derivedFn, h2]
  refine ⟨hd, hd1, ?_⟩
  rw [runResolve, collectDeps_eq]
  by_cases hle : pyStrLe n1 n2 = true
  · have hsort : sortByKey [(n1, Node.mk false (some url) (some integ) none []),
        (n2, Node.mk false (some url) (some integ) none [])] =
        [(n1, Node.mk false (some url) (some integ) none []),
         (n2, Node.mk false (some url) (some integ) none [])] := by
      simp [sortByKey, insertByKey, hle]
    rw [hsort]
    have e1 : registerNode "" n1 (Node.mk false (some url) (some integ) none [])
        ⟨[], []⟩ =
        .ok ⟨[(basename url,
               ⟨.reg ⟨url, algo, hexlify bytes⟩, {mkPath "" n1}⟩)], []⟩ := by
      rw [registerNode_reg_fresh
        (rfl : (Node.mk false (some url) (some integ) none []).resolved = some url)
        (rfl : (Node.mk false (some url) (some integ) none []).integrity = some integ)
        hsplit hdec
        (rfl : rlookup (St.mk [] []).reg (derivedFn n1 url) = none), hd1]
      simp [rset, addPath]
    have hlook : rlookup [(basename url,
        ⟨.reg ⟨url, algo, hexlify bytes⟩, ({mkPath "" n1} : Finset String)⟩)]
        (derivedFn n2 url) =
        some ⟨.reg ⟨url, algo, hexlify bytes⟩, {mkPath "" n1}⟩ := by
      rw [hd2]
      simp [rlookup]
    have e2 : registerNode "" n2 (Node.mk false (some url) (some integ) none [])
        ⟨[(basename url,
           ⟨.reg ⟨url, algo, hexlify bytes⟩, {mkPath "" n1}⟩)], []⟩ =
        .ok ⟨[(basename url,
               ⟨.reg ⟨url, algo, hexlify bytes⟩,
                {mkPath "" n1, mkPath "" n2}⟩)], []⟩ := by
      rw [registerNode_reg_dup
        (rfl : (Node.mk false (some url) (some integ) none []).resolved = some url)
        (rfl : (Node.mk false (some url) (some integ) none []).integrity = some integ)
        hsplit hdec hlook, hd2]
      have hpc : (insert (mkPath "" n2) {mkPath "" n1} : Finset String) =
          {mkPath "" n1, mkPath "" n2} :=
        Finset.pair_comm (mkPath "" n2) (mkPath "" n1)
      simp [addPath, hpc]
    refine collectList_cons_ok (collectEntry_step rfl e1 (collectDeps_nil _ _)) ?_
    refine collectList_cons_ok (collectEntry_step rfl e2 (collectDeps_nil _ _)) ?_
    exact collectList_nil _ _
  · have hle2 : pyStrLe n1 n2 = false := by
      simpa using hle
    have hsort : sortByKey [(n1, Node.mk false (some url) (some integ) none []),
        (n2, Node.mk false (some url) (some integ) none [])] =
        [(n2, Node.mk false (some url) (some integ) none []),
         (n1, Node.mk false (some url) (some integ) none [])] := by
      simp [sortByKey, insertByKey, hle2]
    rw [hsort]
    have e1 : registerNode "" n2 (Node.mk false (some url) (some integ) none [])
        ⟨[], []⟩ =
        .ok ⟨[(basename url,
               ⟨.reg ⟨url, algo, hexlify bytes⟩, {mkPath "" n2}⟩)], []⟩ := by
      rw [registerNode_reg_fresh
        (rfl : (Node.mk false (some url) (some integ) none []).resolved = some url)
        (rfl : (Node.mk false (some url) (some integ) none []).integrity = some integ)
        hsplit hdec
        (rfl : rlookup (St.mk [] []).reg (derivedFn n2 url) = none), hd2]
      simp [rset, addPath]
    have hlook : rlookup [(basename url,
        ⟨.reg ⟨url, algo, hexlify bytes⟩, ({mkPath "" n2} : Finset String)⟩)]
        (derivedFn n1 url) =
        some ⟨.reg ⟨url, algo, hexlify bytes⟩, {mkPath "" n2}⟩ := by
      rw [hd1]
      simp [rlookup]
    have e2 : registerNode "" n1 (Node.mk false (some url) (some integ) none [])
        ⟨[(basename url,
           ⟨.reg ⟨url, algo, hexlify bytes⟩, {mkPath "" n2}⟩)], []⟩ =
        .ok ⟨[(basename url,
               ⟨.reg ⟨url, algo, hexlify bytes⟩,
                {mkPath "" n1, mkPath "" n2}⟩)], []⟩ := by
      rw [registerNode_reg_dup
        (rfl : (Node.mk false (some url) (some integ) none []).resolved = some url)
        (rfl : (Node.mk false (some url) (some integ) none []).integrity = some integ)
        hsplit hdec hlook, hd1]
      simp [addPath]
    refine collectList_cons_ok (collectEntry_step rfl e1 (collectDeps_nil _ _)) ?_
    refine collectList_cons_ok (collectEntry_step rfl e2 (collectDeps_nil _ _)) ?_
    exact collectList_nil _ _

/-- C7 (witness): modules alpha and beta with the same resolved URL and
integrity collapse into one c.tgz entry carrying both paths. -/
theorem c7_filename_collapse_witness :
    (∀ m u1 u2, basename u1 = basename u2 → derivedFn m u1 = derivedFn m u2) ∧
    derivedFn "alpha" "https://r.example.com/c.tgz" =
      basename "https://r.example.com/c.tgz" ∧
    runResolve [("alpha", Node.mk false (some "https://r.example.com/c.tgz")
                  (some "sha512-TWFu") none []),
                ("beta", Node.mk false (some "https://r.example.com/c.tgz")
                  (some "sha512-TWFu") none [])] =
      .ok ⟨[(basename "https://r.example.com/c.tgz",
             ⟨.reg ⟨"https://r.example.com/c.tgz", "sha512", hexlify [77, 97, 110]⟩,
              {mkPath "" "alpha", mkPath "" "beta"}⟩)], []⟩ :=
  c7_filename_collapse "alpha" "beta" "https://r.example.com/c.tgz"
    "sha512-TWFu" "sha512" "TWFu" [77, 97, 110] rfl rfl (by decide) rfl rfl
